import Mathlib

/-!
Verification development for the Ghostfolio Home Assistant integration
(custom_components/ghostfolio). The Python coordinator
`GhostfolioDataUpdateCoordinator._async_update_data` and
`GhostfolioDataUpdateCoordinator.async_prune_orphans` are shallowly embedded:
remote calls become an `Env` of `Except`-valued functions, Python `dict`s become
ordered association lists with overwrite-insert (`dinsert`), Python floats
become `Rat`, a Python record's possibly-missing keys become `Option` fields,
`try/except` becomes matching on `Except`, and the `asyncio.gather` fan-out
becomes a fail-fast `exMapM` (plain `gather` propagates the first exception).
`KeyError` on `d["k"]` is `keyLookup`.  Logging is not modelled.
-/

namespace Ghostfolio

/-- Errors carried by the Except monad; the payload is irrelevant to control flow. -/
abbrev Err := String

/-- An opaque performance record (a raw JSON object); the integration never
inspects it, only stores it. -/
abbrev Perf := List (String × Rat)

/-- One element of `accounts_data["accounts"]`.  `id` and `name` are `Option`
because the code indexes `account["id"]` / `account["name"]` (KeyError when
missing); `isExcluded` is read with `.get` (missing defaults to falsy). -/
structure Account where
  id : Option String
  name : Option String
  isExcluded : Bool
deriving Repr, DecidableEq

/-- The `/api/v1/account` response; the code reads `.get("accounts", [])`. -/
structure AccountsResp where
  accounts : Option (List Account)
deriving Repr, DecidableEq

/-- One holding; the code reads `h.get("quantity")` (with `or 0`) and
`h.get("symbol")`. -/
structure Holding where
  symbol : Option String
  quantity : Option Rat
deriving Repr, DecidableEq

/-- The holdings response; the code reads `.get("holdings", [])`. -/
structure HoldingsResp where
  holdings : Option (List Holding)
deriving Repr, DecidableEq

/-- One market-data history point; the code reads `.get("marketPrice")`
(with `or 0`) and `.get("date")`. -/
structure MDPoint where
  date : Option String
  marketPrice : Option Rat
deriving Repr, DecidableEq

/-- The `assetProfile` section of a market-data response. -/
structure AssetProfile where
  currency : Option String
  assetClass : Option String
deriving Repr, DecidableEq

/-- The market-data response: `.get("marketData", [])` and
`.get("assetProfile", {})`. -/
structure MarketDataResp where
  marketData : Option (List MDPoint)
  assetProfile : Option AssetProfile
deriving Repr, DecidableEq

/-- A watchlist entry, with the fields the enrichment reads and writes. -/
structure WlItem where
  symbol : Option String
  dataSource : Option String
  currency : Option String
  assetClass : Option String
  marketPrice : Option Rat
  marketDate : Option String
  marketChange : Option Rat
  marketChangePercentage : Option Rat
deriving Repr, DecidableEq

/-- The watchlist response: the code branches on `isinstance(list)` /
`isinstance(dict)` and otherwise keeps `raw_items = []`. -/
inductive WlResp where
  | list (items : List WlItem)
  | dict (watchlist : Option (List WlItem)) (items : Option (List WlItem))
  | other
deriving Repr, DecidableEq

/-- A provider health record; the code indexes `res["code"]` (KeyError when
missing). -/
structure HealthRec where
  code : Option String
  is_active : Bool
  status_code : Option Nat
deriving Repr, DecidableEq

/-- The remote API (`GhostfolioAPI`), one `Except`-valued outcome per call.
`get_portfolio_performance` with and without `account_id` are split in two
fields. -/
structure Env where
  get_accounts : Except Err AccountsResp
  get_global_performance : Except Err Perf
  get_account_performance : String → Except Err Perf
  get_holdings : String → Except Err HoldingsResp
  get_watchlist : Except Err WlResp
  get_market_data : String → String → Except Err MarketDataResp
  get_provider_health : String → Except Err HealthRec

/-- The configuration the two methods read: the four `show_*` toggles
(`entry.data.get(..., True)` resolved to a Bool), the `DATA_PROVIDERS`
constant of `const.py` (not in the snapshot; an abstract list of codes),
and `entry.entry_id`. -/
structure Config where
  show_totals : Bool
  show_accounts : Bool
  show_holdings : Bool
  show_watchlist : Bool
  providers : List String
  entry_id : String
deriving Repr, DecidableEq

/-- One refresh result (`data` in `_async_update_data`). -/
structure Snapshot where
  server_online : Bool
  accounts : AccountsResp
  global_performance : Perf
  account_performances : List (String × Perf)
  account_holdings : List (String × List Holding)
  watchlist : List WlItem
  providers : List (String × HealthRec)
deriving Repr, DecidableEq

/-- The initial "Offline" structure built at the top of `_async_update_data`
and returned unchanged from the `except` path. -/
def offlineSnapshot : Snapshot :=
  { server_online := false
    accounts := ⟨none⟩
    global_performance := []
    account_performances := []
    account_holdings := []
    watchlist := []
    providers := [] }

/-- Python `d["k"]`: the value, or KeyError. -/
def keyLookup {α : Type} : Option α → Except Err α
  | some a => Except.ok a
  | none => Except.error ("KeyError")

/-- Whether an `Except` computation succeeded (no exception raised). -/
def isOkE {α : Type} : Except Err α → Bool
  | Except.ok _ => true
  | Except.error _ => false

/-- Python `dict` insertion `m[k] = v`: overwrite in place when the key
exists, else append (insertion order preserved). -/
def dinsert {α : Type} (m : List (String × α)) (k : String) (v : α) :
    List (String × α) :=
  if m.any (fun p => p.1 == k) then
    m.map (fun p => if p.1 == k then (k, v) else p)
  else m ++ [(k, v)]

/-- Python `k in m` for a dict. -/
def hasKey {α : Type} (m : List (String × α)) (q : String) : Bool :=
  m.any (fun p => p.1 == q)

/-- Python `m.get(k, d)` for a dict. -/
def lookupD {α : Type} (m : List (String × α)) (k : String) (d : α) : α :=
  (((m.find? (fun p => p.1 == k)).map (fun p => p.2)).getD d)

/-- Python string truthiness of an optional string: `None` and `""` are falsy. -/
def strFalsy : Option String → Bool
  | none => true
  | some s => s.isEmpty

/-- `float(e.get("marketPrice") or 0)`. -/
def priceOf (p : MDPoint) : Rat :=
  p.marketPrice.getD 0

/-- Python negative indexing `h[-k]` for `1 ≤ k ≤ h.length` (every use in the
source is guarded to stay in range, so the default is never read). -/
def negIdx (h : List MDPoint) (k : Nat) : MDPoint :=
  h.getD (h.length - k) ⟨none, none⟩

/-- The backward-walk `while` loop of the watchlist enrichment, with
`k = -latest_idx` and fuel `= max_lookback - lookback_count` (the loop body
increments `lookback_count` exactly when it decrements `latest_idx`, so
`lookback_count = k - 1` throughout).  Returns the final `k`. -/
def lookbackGo (h : List MDPoint) (cp : Rat) : Nat → Nat → Nat
  | 0, k => k
  | fuel + 1, k =>
    if k < h.length ∧ priceOf (negIdx h (k + 1)) = cp then
      lookbackGo h cp fuel (k + 1)
    else k

/-- The walk as started by the source: `latest_idx = -1`, `max_lookback = 5`. -/
def lookback (h : List MDPoint) (cp : Rat) : Nat :=
  lookbackGo h cp 5 1

/-- The price/date/change half of the enrichment (`if history and ...` block):
walk, optional change fields, then the unconditional `marketPrice` /
`marketDate` assignments. -/
def applyMarket (item : WlItem) (history : List MDPoint) : WlItem :=
  if history.isEmpty then item
  else
    let cp := priceOf (negIdx history 1)
    let k := lookback history cp
    let item0 :=
      if k + 1 ≤ history.length then
        let pp := priceOf (negIdx history (k + 1))
        if 0 < pp then
          { item with
            marketChange := some (cp - pp)
            marketChangePercentage := some ((cp - pp) / pp * 100) }
        else item
      else item
    { item0 with
      marketPrice := some cp
      marketDate := (negIdx history k).date }

/-- The `assetProfile` half of the enrichment: fill `currency` and
`assetClass` only when the item's own value is falsy. -/
def profileFill (item : WlItem) (profile : AssetProfile) : WlItem :=
  let item2 :=
    if strFalsy item.currency then { item with currency := profile.currency }
    else item
  if strFalsy item2.assetClass then { item2 with assetClass := profile.assetClass }
  else item2

/-- The market-data enrichment of one watchlist item (the body of the inner
`try` after `get_market_data` succeeded; it is total from there on). -/
def enrichWithMarket (item : WlItem) (resp : MarketDataResp) : WlItem :=
  profileFill (applyMarket item (resp.marketData.getD []))
    (resp.assetProfile.getD ⟨none, none⟩)

/-- The history list the enrichment works on (`.get("marketData", [])`). -/
def histOf (resp : MarketDataResp) : List MDPoint :=
  resp.marketData.getD []

/-- `current_price`: the price of the last history point (`history[-1]`). -/
def curPrice (h : List MDPoint) : Rat :=
  priceOf (negIdx h 1)

/-- The `k = -latest_idx` at which the backward walk of a response's history
stops. -/
def walkStop (resp : MarketDataResp) : Nat :=
  lookback (histOf resp) (curPrice (histOf resp))

/-- One iteration of the watchlist loop body: fetch market data when `symbol`
and `dataSource` are truthy, enrich on success, keep the item unchanged on a
caught per-item failure. -/
def enrichItem (env : Env) (item : WlItem) : WlItem :=
  if strFalsy item.symbol || strFalsy item.dataSource then item
  else
    match env.get_market_data (item.dataSource.getD ("")) (item.symbol.getD ("")) with
    | Except.ok resp => enrichWithMarket item resp
    | Except.error _ => item

/-- The list-vs-dict watchlist normalization (`raw_items`): a bare list is
taken as is; for a dict, `wl_response.get("watchlist", []) or
wl_response.get("items", [])` (an absent or empty `watchlist` value falls
through to `items`); anything else leaves `raw_items = []`. -/
def normalizeWl : WlResp → List WlItem
  | WlResp.list items => items
  | WlResp.dict w i =>
    match w with
    | some l => if l.isEmpty then i.getD [] else l
    | none => i.getD []
  | WlResp.other => []

/-- Step 4 of the cycle: watchlist fetch plus per-item enrichment.  The whole
step is wrapped in its own `try`, per-item enrichment failures are caught
inside the loop, and every raw item is appended, so the step never escalates. -/
def fetchWatchlist (cfg : Config) (env : Env) : List WlItem :=
  if cfg.show_watchlist then
    match env.get_watchlist with
    | Except.ok wl => (normalizeWl wl).map (enrichItem env)
    | Except.error _ => []
  else []

/-- Sub-step A of one non-excluded account's loop iteration: the performance
fetch, wrapped in `try`; the `except` arm evaluates `account["name"]` for its
log line, so a failing fetch on an account with no `name` key escalates. -/
def stepPerf (env : Env) (a : Account) (aid : String)
    (perfs : List (String × Perf)) : Except Err (List (String × Perf)) :=
  match env.get_account_performance aid with
  | Except.ok p => Except.ok (dinsert perfs aid p)
  | Except.error _ =>
    match keyLookup a.name with
    | Except.error e => Except.error e
    | Except.ok _ => Except.ok perfs

/-- Sub-step B of the loop body: the holdings fetch (config-gated), with the
same logging-time `account["name"]` hazard in its `except` arm. -/
def stepHold (env : Env) (cfg : Config) (a : Account) (aid : String)
    (holds : List (String × List Holding)) :
    Except Err (List (String × List Holding)) :=
  if cfg.show_holdings then
    match env.get_holdings aid with
    | Except.ok hr => Except.ok (dinsert holds aid (hr.holdings.getD []))
    | Except.error _ =>
      match keyLookup a.name with
      | Except.error e => Except.error e
      | Except.ok _ => Except.ok holds
  else Except.ok holds

/-- One non-excluded account's iteration of the per-account loop:
`account["id"]` may raise, then the two config-gated sub-fetches run in
order.  Returns the updated accumulators. -/
def stepAccount (env : Env) (cfg : Config) (a : Account)
    (perfs : List (String × Perf)) (holds : List (String × List Holding)) :
    Except Err (List (String × Perf) × List (String × List Holding)) :=
  match keyLookup a.id with
  | Except.error e => Except.error e
  | Except.ok aid =>
    match stepPerf env a aid perfs with
    | Except.error e => Except.error e
    | Except.ok perfs2 =>
      match stepHold env cfg a aid holds with
      | Except.error e => Except.error e
      | Except.ok holds2 => Except.ok (perfs2, holds2)

/-- Step 3 of the cycle: the per-account loop.  Excluded accounts are
skipped entirely. -/
def processAccounts (env : Env) (cfg : Config) :
    List Account → List (String × Perf) → List (String × List Holding) →
    Except Err (List (String × Perf) × List (String × List Holding))
  | [], perfs, holds => Except.ok (perfs, holds)
  | a :: rest, perfs, holds =>
    if a.isExcluded then processAccounts env cfg rest perfs holds
    else
      match stepAccount env cfg a perfs holds with
      | Except.error e => Except.error e
      | Except.ok (perfs2, holds2) => processAccounts env cfg rest perfs2 holds2

/-- `asyncio.gather` over the provider-health calls with the default
`return_exceptions=False`: the results in order, or the first exception
propagated (a single failing call fails the join). -/
def exMapM {α β : Type} (f : α → Except Err β) : List α → Except Err (List β)
  | [] => Except.ok []
  | a :: rest =>
    match f a with
    | Except.error e => Except.error e
    | Except.ok b =>
      match exMapM f rest with
      | Except.error e => Except.error e
      | Except.ok bs => Except.ok (b :: bs)

/-- `provider_results[res["code"]] = res` over the gathered results
(KeyError when a record has no `code`). -/
def keyProviders :
    List HealthRec → List (String × HealthRec) →
    Except Err (List (String × HealthRec))
  | [], m => Except.ok m
  | r :: rest, m =>
    match keyLookup r.code with
    | Except.error e => Except.error e
    | Except.ok c => keyProviders rest (dinsert m c r)

/-- The body of the big `try` of `_async_update_data`: any `Except.error`
models an exception reaching the outer `except`. -/
def refreshBody (cfg : Config) (env : Env) : Except Err Snapshot :=
  match env.get_accounts with
  | Except.error e => Except.error e
  | Except.ok accounts_data =>
    match env.get_global_performance with
    | Except.error e => Except.error e
    | Except.ok gp =>
      match processAccounts env cfg (accounts_data.accounts.getD []) [] [] with
      | Except.error e => Except.error e
      | Except.ok (perfs, holds) =>
        match exMapM env.get_provider_health cfg.providers with
        | Except.error e => Except.error e
        | Except.ok rs =>
          match keyProviders rs [] with
          | Except.error e => Except.error e
          | Except.ok pm =>
            Except.ok
              { server_online := true
                accounts := accounts_data
                global_performance := gp
                account_performances := perfs
                account_holdings := holds
                watchlist := fetchWatchlist cfg env
                providers := pm }

/-- `_async_update_data` itself: the body's result, or the untouched offline
default from the outer `except` arm.  Total: it never propagates an error. -/
def refresh (cfg : Config) (env : Env) : Snapshot :=
  match refreshBody cfg env with
  | Except.ok s => s
  | Except.error _ => offlineSnapshot

/-- ASCII lowering of one character (`str.lower` on the code points the
identifiers use); this is exactly the standard library's `Char.toLower`. -/
def lowerChar (c : Char) : Char :=
  Char.toLower c

/-- `provider.lower()` / `provider_code.lower()` / `str.lower`. -/
def lowerStr (s : String) : String :=
  String.mk (s.data.map lowerChar)

/-- Split into maximal space-free words, dropping empty runs; `cur` is the
reversed word being accumulated. -/
def slugWords (cur : List Char) : List Char → List String
  | [] => if cur.isEmpty then [] else [String.mk cur.reverse]
  | c :: cs =>
    if c = ' ' then
      if cur.isEmpty then slugWords [] cs
      else String.mk cur.reverse :: slugWords [] cs
    else slugWords (c :: cur) cs

/-- Modelled from the spec: `homeassistant.util.slugify` is not part of the
repository snapshot; §4.4 specifies a "case/whitespace-insensitive slug", so
the model lowercases and joins the whitespace-separated words with the `_`
separator. -/
def slugify (s : String) : String :=
  String.intercalate ("_") (slugWords [] ((lowerStr s).data))

/-- `f"ghostfolio_holding_{account_id}_{safe_symbol}_{entry_id}"` with
`safe_symbol = slugify(symbol)` (async_prune_orphans). -/
def holdingUid (aid sym eid : String) : String :=
  ("ghostfolio_holding_") ++ aid ++ ("_") ++ slugify sym ++ ("_") ++ eid

/-- The seven global sensor unique ids added under `CONF_SHOW_TOTALS`. -/
def globalIds (eid : String) : List String :=
  [("ghostfolio_current_value_") ++ eid,
   ("ghostfolio_net_performance_") ++ eid,
   ("ghostfolio_net_performance_percent_") ++ eid,
   ("ghostfolio_total_investment_") ++ eid,
   ("ghostfolio_net_performance_percent_with_currency_") ++ eid,
   ("ghostfolio_net_performance_with_currency_") ++ eid,
   ("ghostfolio_simple_gain_percent_") ++ eid]

/-- The five per-account sensor unique ids added under `show_accounts`. -/
def accountIds (aid eid : String) : List String :=
  [("ghostfolio_account_value_") ++ aid ++ ("_") ++ eid,
   ("ghostfolio_account_cost_") ++ aid ++ ("_") ++ eid,
   ("ghostfolio_account_perf_") ++ aid ++ ("_") ++ eid,
   ("ghostfolio_account_perf_pct_") ++ aid ++ ("_") ++ eid,
   ("ghostfolio_account_simple_gain_") ++ aid ++ ("_") ++ eid]

/-- The sensor + two number unique ids of one active holding. -/
def holdingIds (aid sym eid : String) : List String :=
  [holdingUid aid sym eid,
   ("ghostfolio_limit_low_") ++ aid ++ ("_") ++ slugify sym ++ ("_") ++ eid,
   ("ghostfolio_limit_high_") ++ aid ++ ("_") ++ slugify sym ++ ("_") ++ eid]

/-- The sensor + two number unique ids of one watchlist item. -/
def watchlistIds (sym eid : String) : List String :=
  [("ghostfolio_watchlist_") ++ slugify sym ++ ("_") ++ eid,
   ("ghostfolio_watchlist_limit_low_") ++ slugify sym ++ ("_") ++ eid,
   ("ghostfolio_watchlist_limit_high_") ++ slugify sym ++ ("_") ++ eid]

/-- Section 4 of `async_prune_orphans`: per-account ids, skipping excluded
accounts; `account["id"]` may raise. -/
def accountSectionIds (cfg : Config) : List Account → Except Err (List String)
  | [] => Except.ok []
  | a :: rest =>
    if a.isExcluded then accountSectionIds cfg rest
    else
      match keyLookup a.id with
      | Except.error e => Except.error e
      | Except.ok aid =>
        match accountSectionIds cfg rest with
        | Except.error e => Except.error e
        | Except.ok restIds =>
          Except.ok ((if cfg.show_accounts then accountIds aid cfg.entry_id else []) ++ restIds)

/-- The inner holdings loop of section 5: only `quantity > 0` holdings
generate identifiers. -/
def activeHoldingIds (aid eid : String) : List Holding → List String
  | [] => []
  | h :: hs =>
    if 0 < h.quantity.getD 0 then
      holdingIds aid (h.symbol.getD ("")) eid ++ activeHoldingIds aid eid hs
    else activeHoldingIds aid eid hs

/-- Section 5 of `async_prune_orphans`: a second walk over the accounts list
(skipping excluded accounts), looking each account's holdings up in the
cached `account_holdings` mapping. -/
def holdingSectionIds (cfg : Config) (hmap : List (String × List Holding)) :
    List Account → Except Err (List String)
  | [] => Except.ok []
  | a :: rest =>
    if a.isExcluded then holdingSectionIds cfg hmap rest
    else
      match keyLookup a.id with
      | Except.error e => Except.error e
      | Except.ok aid =>
        match holdingSectionIds cfg hmap rest with
        | Except.error e => Except.error e
        | Except.ok restIds =>
          Except.ok (activeHoldingIds aid cfg.entry_id (lookupD hmap aid []) ++ restIds)

/-- Section 6 of `async_prune_orphans`: watchlist ids. -/
def watchlistSectionIds (eid : String) (items : List WlItem) : List String :=
  items.foldr (fun it acc => watchlistIds (it.symbol.getD ("")) eid ++ acc) []

/-- The full `valid_unique_ids` set (as a list; only membership is used),
built from the cached Snapshot and the feature toggles. -/
def pruneExpected (cfg : Config) (s : Snapshot) : Except Err (List String) :=
  let accounts_list := s.accounts.accounts.getD []
  match accountSectionIds cfg accounts_list with
  | Except.error e => Except.error e
  | Except.ok accIds =>
    match
      (if cfg.show_holdings then holdingSectionIds cfg s.account_holdings accounts_list
       else Except.ok []) with
    | Except.error e => Except.error e
    | Except.ok holdIds =>
      Except.ok
        ((if cfg.show_totals then globalIds cfg.entry_id else [])
          ++ [("ghostfolio_server_status_") ++ cfg.entry_id]
          ++ cfg.providers.map
              (fun p => ("ghostfolio_provider_") ++ lowerStr p ++ ("_") ++ cfg.entry_id)
          ++ [("ghostfolio_prune_button_") ++ cfg.entry_id]
          ++ accIds
          ++ holdIds
          ++ (if cfg.show_watchlist then watchlistSectionIds cfg.entry_id s.watchlist else []))

/-- One row of the host's entity registry for this config entry. -/
structure RegistryEntry where
  entity_id : String
  unique_id : String
deriving Repr, DecidableEq

/-- `async_prune_orphans`: fails fast (keeping the registry intact, removal
count 0) when there is no cached data or the cached Snapshot is offline;
otherwise removes every registered entity whose `unique_id` is not expected.
Returns the surviving registry and the number of removals. -/
def pruneOrphans (cfg : Config) (data : Option Snapshot)
    (entries : List RegistryEntry) : Except Err (List RegistryEntry × Nat) :=
  match data with
  | none => Except.ok (entries, 0)
  | some s =>
    if s.server_online = false then Except.ok (entries, 0)
    else
      match pruneExpected cfg s with
      | Except.error e => Except.error e
      | Except.ok valid =>
        Except.ok
          (entries.filter (fun e => valid.contains e.unique_id),
           (entries.filter (fun e => !(valid.contains e.unique_id))).length)

/-! ### Concrete inputs used by the claim theorems -/

/-- A history point with both fields present. -/
def mdp (d : String) (p : Rat) : MDPoint :=
  ⟨some d, some p⟩

/-- A raw watchlist item before enrichment. -/
def rawItem : WlItem :=
  ⟨some ("SYM"), some ("YAHOO"), none, none, none, none, none, none⟩

/-- Seven history points with the same positive price: the walk exhausts its
budget of 5 inside the stale run and the post-loop block still finds a
predecessor, of equal price. -/
def respStale7 : MarketDataResp :=
  ⟨some [mdp ("d1") 100, mdp ("d2") 100, mdp ("d3") 100, mdp ("d4") 100,
         mdp ("d5") 100, mdp ("d6") 100, mdp ("d7") 100], none⟩

/-- A stale run at the end: `[(d1,50),(d2,100),(d3,100)]`. -/
def respStale3 : MarketDataResp :=
  ⟨some [mdp ("d1") 50, mdp ("d2") 100, mdp ("d3") 100], none⟩

/-- An environment where every call succeeds except the health call of every
provider. -/
def envPH : Env :=
  ⟨Except.ok ⟨some []⟩, Except.ok [], fun _ => Except.ok [],
   fun _ => Except.ok ⟨none⟩, Except.ok (WlResp.list []),
   fun _ _ => Except.ok ⟨none, none⟩, fun _ => Except.error ("boom")⟩

/-- One configured provider, everything displayed. -/
def cfgPH : Config :=
  ⟨true, true, true, true, [("YAHOO")], ("e1")⟩

/-- Two configured providers; only the health call of `"B"` fails. -/
def cfg2 : Config :=
  ⟨true, true, true, true, [("A"), ("B")], ("e2")⟩

/-- Every call succeeds except provider `"B"`'s health call. -/
def env2 : Env :=
  ⟨Except.ok ⟨some []⟩, Except.ok [], fun _ => Except.ok [],
   fun _ => Except.ok ⟨none⟩, Except.ok (WlResp.list []),
   fun _ _ => Except.ok ⟨none, none⟩,
   fun p => if p = ("A") then Except.ok ⟨some ("A"), true, some 200⟩
            else Except.error ("down")⟩

/-- The Snapshot with excluded accounts dropped from the raw accounts list. -/
def dropExcluded (s : Snapshot) : Snapshot :=
  { s with accounts := ⟨some ((s.accounts.accounts.getD []).filter (fun a => !a.isExcluded))⟩ }

/-- The Snapshot with non-positive-quantity holdings dropped from every
account's holdings list. -/
def dropInactiveHoldings (s : Snapshot) : Snapshot :=
  { s with account_holdings :=
      s.account_holdings.map (fun p => (p.1, p.2.filter (fun h => decide (0 < h.quantity.getD 0)))) }

/-- Everything succeeds, but the single account record has no `"id"` key. -/
def envNoId : Env :=
  ⟨Except.ok ⟨some [⟨none, some ("n"), false⟩]⟩, Except.ok [],
   fun _ => Except.ok [], fun _ => Except.ok ⟨none⟩,
   Except.ok (WlResp.list []), fun _ _ => Except.ok ⟨none, none⟩,
   fun p => Except.ok ⟨some p, true, some 200⟩⟩

/-- One provider; two non-excluded accounts with ids and names; the
performance fetch fails for account `"a2"` only; the watchlist fetch fails. -/
def cfg9 : Config :=
  ⟨true, true, true, true, [("A")], ("e9")⟩

def env9 : Env :=
  ⟨Except.ok ⟨some [⟨some ("a1"), some ("n1"), false⟩, ⟨some ("a2"), some ("n2"), false⟩]⟩,
   Except.ok [],
   fun aid => if aid = ("a1") then Except.ok [] else Except.error ("x"),
   fun _ => Except.ok ⟨some []⟩,
   Except.error ("wl"),
   fun _ _ => Except.ok ⟨none, none⟩,
   fun p => Except.ok ⟨some p, true, some 200⟩⟩

/-- Everything top-level succeeds, but the single account has no `"name"`
key and its performance fetch fails: the logging line's `account["name"]`
raises inside the `except` handler and aborts the whole cycle. -/
def env9ce : Env :=
  ⟨Except.ok ⟨some [⟨some ("a1"), none, false⟩]⟩, Except.ok [],
   fun _ => Except.error ("x"), fun _ => Except.ok ⟨none⟩,
   Except.ok (WlResp.list []), fun _ _ => Except.ok ⟨none, none⟩,
   fun p => Except.ok ⟨some p, true, some 200⟩⟩

/-! ### Lemmas about the backward walk and the enrichment -/

theorem lookbackGo_bounds (h : List MDPoint) (cp : Rat) :
    ∀ fuel k, k ≤ lookbackGo h cp fuel k ∧ lookbackGo h cp fuel k ≤ k + fuel := by
  intro fuel
  induction fuel with
  | zero => intro k; simp [lookbackGo]
  | succ n ih =>
    intro k
    rw [lookbackGo]
    split
    · have := ih (k + 1); omega
    · omega

theorem lookbackGo_prices (h : List MDPoint) (cp : Rat) :
    ∀ fuel k j, k < j → j ≤ lookbackGo h cp fuel k → priceOf (negIdx h j) = cp := by
  intro fuel
  induction fuel with
  | zero =>
    intro k j h1 h2
    rw [lookbackGo] at h2
    omega
  | succ n ih =>
    intro k j h1 h2
    rw [lookbackGo] at h2
    split at h2
    · rename_i hc
      rcases Nat.lt_or_ge (k + 1) j with hl | hg
      · exact ih (k + 1) j hl h2
      · have : j = k + 1 := by omega
        rw [this]
        exact hc.2
    · omega

theorem profileFill_market (item : WlItem) (pr : AssetProfile) :
    (profileFill item pr).marketChange = item.marketChange
    ∧ (profileFill item pr).marketChangePercentage = item.marketChangePercentage
    ∧ (profileFill item pr).marketPrice = item.marketPrice
    ∧ (profileFill item pr).marketDate = item.marketDate := by
  unfold profileFill
  dsimp only
  split <;> split <;> simp

theorem applyMarket_price_date (item : WlItem) (h : List MDPoint)
    (hne : h.isEmpty = false) :
    (applyMarket item h).marketPrice = some (curPrice h)
    ∧ (applyMarket item h).marketDate = (negIdx h (lookback h (curPrice h))).date := by
  unfold applyMarket curPrice
  rw [if_neg (by simp [hne])]
  exact ⟨rfl, rfl⟩

theorem applyMarket_change_set (item : WlItem) (h : List MDPoint)
    (hne : h.isEmpty = false) (hle : lookback h (curPrice h) + 1 ≤ h.length)
    (hpos : 0 < priceOf (negIdx h (lookback h (curPrice h) + 1))) :
    (applyMarket item h).marketChange
      = some (curPrice h - priceOf (negIdx h (lookback h (curPrice h) + 1)))
    ∧ (applyMarket item h).marketChangePercentage
      = some ((curPrice h - priceOf (negIdx h (lookback h (curPrice h) + 1)))
              / priceOf (negIdx h (lookback h (curPrice h) + 1)) * 100) := by
  unfold applyMarket curPrice at *
  rw [if_neg (by simp [hne])]
  dsimp only
  rw [if_pos hle, if_pos hpos]
  exact ⟨rfl, rfl⟩

theorem applyMarket_change_omitted (item : WlItem) (h : List MDPoint)
    (hno : ¬(lookback h (curPrice h) + 1 ≤ h.length
             ∧ 0 < priceOf (negIdx h (lookback h (curPrice h) + 1)))) :
    (applyMarket item h).marketChange = item.marketChange
    ∧ (applyMarket item h).marketChangePercentage = item.marketChangePercentage := by
  unfold applyMarket curPrice at *
  split
  · exact ⟨rfl, rfl⟩
  · dsimp only
    rcases Classical.em (lookback h (priceOf (negIdx h 1)) + 1 ≤ h.length) with hle | hle
    · rw [if_pos hle, if_neg (fun hpos => hno ⟨hle, hpos⟩)]
      exact ⟨rfl, rfl⟩
    · rw [if_neg hle]
      exact ⟨rfl, rfl⟩

/-- C3, counterexample: on a history of seven identical positive prices the
code emits `marketChange = 0` and `marketChangePercentage = 0`, which the
claim says is never emitted. -/
theorem c3_counterexample :
    (enrichWithMarket rawItem respStale7).marketChange = some 0
    ∧ (enrichWithMarket rawItem respStale7).marketChangePercentage = some 0 := by
  have hk : lookback (histOf respStale7) (curPrice (histOf respStale7)) = 6 := by
    decide
  have hne : (histOf respStale7).isEmpty = false := by decide
  have hle : lookback (histOf respStale7) (curPrice (histOf respStale7)) + 1
      ≤ (histOf respStale7).length := by rw [hk]; decide
  have hpos : 0 < priceOf (negIdx (histOf respStale7)
      (lookback (histOf respStale7) (curPrice (histOf respStale7)) + 1)) := by
    rw [hk]; decide
  have hp := profileFill_market (applyMarket rawItem (histOf respStale7))
    (respStale7.assetProfile.getD ⟨none, none⟩)
  have hs := applyMarket_change_set rawItem (histOf respStale7) hne hle hpos
  have hcp : curPrice (histOf respStale7) = 100 := by decide
  have hpp : priceOf (negIdx (histOf respStale7)
      (lookback (histOf respStale7) (curPrice (histOf respStale7)) + 1)) = 100 := by
    rw [hk]; decide
  have he : enrichWithMarket rawItem respStale7
      = profileFill (applyMarket rawItem (histOf respStale7))
          (respStale7.assetProfile.getD ⟨none, none⟩) := rfl
  constructor
  · rw [he, hp.1, hs.1, hpp, hcp]
    norm_num
  · rw [he, hp.2.1, hs.2, hpp, hcp]
    norm_num

/-- C3, amended: the walk stops at `walkStop` with `1 ≤ walkStop ≤ 6`, having
skipped only points priced exactly at `current_price`; the change fields are
set (to `current_price` minus the price at `walkStop + 1`, possibly zero, and
possibly against the sixth-back point never examined by the walk) exactly when
the point at `walkStop + 1` exists in the history and its price is strictly
positive, and are left untouched otherwise. -/
theorem c3_change_characterization :
    ∀ (item : WlItem) (resp : MarketDataResp),
      (1 ≤ walkStop resp ∧ walkStop resp ≤ 6)
      ∧ (∀ j, 1 ≤ j → j ≤ walkStop resp →
          priceOf (negIdx (histOf resp) j) = curPrice (histOf resp))
      ∧ ((histOf resp).isEmpty = false →
          walkStop resp + 1 ≤ (histOf resp).length →
          0 < priceOf (negIdx (histOf resp) (walkStop resp + 1)) →
          (enrichWithMarket item resp).marketChange
            = some (curPrice (histOf resp)
                    - priceOf (negIdx (histOf resp) (walkStop resp + 1)))
          ∧ (enrichWithMarket item resp).marketChangePercentage
            = some ((curPrice (histOf resp)
                     - priceOf (negIdx (histOf resp) (walkStop resp + 1)))
                    / priceOf (negIdx (histOf resp) (walkStop resp + 1)) * 100))
      ∧ ((histOf resp).isEmpty = false →
          ¬(walkStop resp + 1 ≤ (histOf resp).length
            ∧ 0 < priceOf (negIdx (histOf resp) (walkStop resp + 1))) →
          (enrichWithMarket item resp).marketChange = item.marketChange
          ∧ (enrichWithMarket item resp).marketChangePercentage
            = item.marketChangePercentage) := by
  intro item resp
  have hb := lookbackGo_bounds (histOf resp) (curPrice (histOf resp)) 5 1
  refine ⟨⟨hb.1, by simpa using hb.2⟩, ?_, ?_, ?_⟩
  · intro j h1 h2
    rcases Nat.lt_or_ge 1 j with hj | hj
    · exact lookbackGo_prices (histOf resp) (curPrice (histOf resp)) 5 1 j hj h2
    · have : j = 1 := by omega
      rw [this]
      rfl
  · intro hne hle hpos
    have hp := profileFill_market
      (applyMarket item (histOf resp)) (resp.assetProfile.getD ⟨none, none⟩)
    have hs := applyMarket_change_set item (histOf resp) hne hle hpos
    unfold enrichWithMarket
    exact ⟨hp.1.trans hs.1, hp.2.1.trans hs.2⟩
  · intro hne hno
    have hp := profileFill_market
      (applyMarket item (histOf resp)) (resp.assetProfile.getD ⟨none, none⟩)
    have hs := applyMarket_change_omitted item (histOf resp) hno
    unfold enrichWithMarket
    exact ⟨hp.1.trans hs.1, hp.2.1.trans hs.2⟩

/-- C4, counterexample: on `[(d1,50),(d2,100),(d3,100)]` the code sets
`marketDate` to `d2` — the stale-run point the walk stopped at — while the
date of the last history point is `d3`. -/
theorem c4_counterexample :
    (enrichWithMarket rawItem respStale3).marketDate = some ("d2")
    ∧ (negIdx (histOf respStale3) 1).date = some ("d3")
    ∧ (enrichWithMarket rawItem respStale3).marketPrice = some 100 := by
  refine ⟨by decide, by decide, by decide⟩

/-- C4, amended: on a non-empty history the enrichment always sets
`marketPrice` to the last point's price (missing price read as 0), but sets
`marketDate` to the date of the point at which the backward walk stopped;
that is the last point's date exactly in the no-stale-run cases (second
point's price differs, or a single-point history). -/
theorem c4_price_and_date :
    ∀ (item : WlItem) (resp : MarketDataResp),
      ((histOf resp).isEmpty = false →
        (enrichWithMarket item resp).marketPrice = some (curPrice (histOf resp))
        ∧ (enrichWithMarket item resp).marketDate
          = (negIdx (histOf resp) (walkStop resp)).date)
      ∧ ((histOf resp).isEmpty = false →
          priceOf (negIdx (histOf resp) 2) ≠ curPrice (histOf resp) →
          (enrichWithMarket item resp).marketDate = (negIdx (histOf resp) 1).date)
      ∧ ((histOf resp).length = 1 →
          (enrichWithMarket item resp).marketDate = (negIdx (histOf resp) 1).date) := by
  intro item resp
  have hp := profileFill_market
    (applyMarket item (histOf resp)) (resp.assetProfile.getD ⟨none, none⟩)
  have main : (histOf resp).isEmpty = false →
      (enrichWithMarket item resp).marketPrice = some (curPrice (histOf resp))
      ∧ (enrichWithMarket item resp).marketDate
        = (negIdx (histOf resp) (walkStop resp)).date := by
    intro hne
    have ha := applyMarket_price_date item (histOf resp) hne
    unfold enrichWithMarket
    exact ⟨hp.2.2.1.trans ha.1, hp.2.2.2.trans ha.2⟩
  refine ⟨main, ?_, ?_⟩
  · intro hne hdiff
    have hstop : walkStop resp = 1 := by
      unfold walkStop lookback
      rw [lookbackGo]
      rw [if_neg (fun hc => hdiff hc.2)]
    have := (main hne).2
    rw [hstop] at this
    exact this
  · intro hlen
    have hne : (histOf resp).isEmpty = false := by
      cases hh : histOf resp with
      | nil => rw [hh] at hlen; simp at hlen
      | cons a l => simp
    have hstop : walkStop resp = 1 := by
      unfold walkStop lookback
      rw [lookbackGo]
      rw [if_neg (fun hc => by omega)]
    have := (main hne).2
    rw [hstop] at this
    exact this

/-! ### Lemmas about dictionaries, the gather fan-out and the cycle body -/

theorem hasKey_dinsert_iff {α : Type} (m : List (String × α)) (k : String)
    (v : α) (q : String) :
    hasKey (dinsert m k v) q = true ↔ (hasKey m q = true ∨ q = k) := by
  unfold hasKey dinsert
  split
  · rename_i hk
    simp only [List.any_map, List.any_eq_true, Function.comp_apply, beq_iff_eq] at hk ⊢
    constructor
    · rintro ⟨p, hp, hpq⟩
      by_cases hpk : p.1 = k
      · right
        rw [if_pos hpk] at hpq
        exact hpq.symm
      · left
        rw [if_neg hpk] at hpq
        exact ⟨p, hp, hpq⟩
    · rintro (⟨p, hp, hpq⟩ | hq)
      · by_cases hpk : p.1 = k
        · exact ⟨p, hp, by rw [if_pos hpk, ← hpq, hpk]⟩
        · exact ⟨p, hp, by rw [if_neg hpk]; exact hpq⟩
      · obtain ⟨p0, hp0, hp0k⟩ := hk
        exact ⟨p0, hp0, by rw [if_pos hp0k]; exact hq.symm⟩
  · simp only [List.any_append, Bool.or_eq_true, List.any_cons, List.any_nil,
      Bool.or_false, beq_iff_eq]
    constructor
    · rintro (h | h)
      · exact Or.inl h
      · exact Or.inr h.symm
    · rintro (h | h)
      · exact Or.inl h
      · exact Or.inr h.symm

theorem exMapM_all_ok {α β : Type} (f : α → Except Err β) :
    ∀ l bs, exMapM f l = Except.ok bs → ∀ a ∈ l, isOkE (f a) = true := by
  intro l
  induction l with
  | nil => intro bs h a ha; simp at ha
  | cons x xs ih =>
    intro bs h a ha
    rw [exMapM] at h
    rcases hx : f x with e | b
    · rw [hx] at h; exact absurd h (by simp)
    · rw [hx] at h
      rcases hm : exMapM f xs with e2 | bs2
      · rw [hm] at h; exact absurd h (by simp)
      · rw [hm] at h
        rcases List.mem_cons.mp ha with rfl | hmem
        · rw [hx]; rfl
        · exact ih bs2 hm a hmem

theorem exMapM_health (f : String → Except Err HealthRec) :
    ∀ l, (∀ p ∈ l, ∃ r, f p = Except.ok r ∧ r.code = some p) →
      ∃ rs, exMapM f l = Except.ok rs
        ∧ rs.map (fun r => r.code) = l.map some := by
  intro l
  induction l with
  | nil => intro _; exact ⟨[], rfl, rfl⟩
  | cons x xs ih =>
    intro hall
    obtain ⟨r, hr, hcode⟩ := hall x (List.mem_cons_self x xs)
    obtain ⟨rs, hrs, hmap⟩ := ih (fun p hp => hall p (List.mem_cons_of_mem x hp))
    refine ⟨r :: rs, ?_, ?_⟩
    · rw [exMapM, hr, hrs]
    · simp [hmap, hcode]

theorem keyProviders_char :
    ∀ (rs : List HealthRec) (m : List (String × HealthRec)),
      (∀ r ∈ rs, r.code.isSome = true) →
      ∃ pm, keyProviders rs m = Except.ok pm
        ∧ ∀ q, hasKey pm q = true
            ↔ (hasKey m q = true ∨ some q ∈ rs.map (fun r => r.code)) := by
  intro rs
  induction rs with
  | nil => intro m _; exact ⟨m, rfl, by simp⟩
  | cons r rest ih =>
    intro m hall
    have hr := hall r (List.mem_cons_self r rest)
    rcases hc : r.code with _ | c
    · rw [hc] at hr; simp at hr
    · obtain ⟨pm, hpm, hiff⟩ :=
        ih (dinsert m c r) (fun x hx => hall x (List.mem_cons_of_mem r hx))
      refine ⟨pm, ?_, ?_⟩
      · rw [keyProviders, hc]
        exact hpm
      · intro q
        rw [hiff q, hasKey_dinsert_iff]
        simp only [hc, List.map_cons, List.mem_cons, Option.some.injEq]
        tauto

theorem refreshBody_ok_inv (cfg : Config) (env : Env) (snap : Snapshot)
    (h : refreshBody cfg env = Except.ok snap) :
    snap.server_online = true
    ∧ snap.watchlist = fetchWatchlist cfg env
    ∧ isOkE env.get_accounts = true
    ∧ isOkE env.get_global_performance = true
    ∧ (∀ p ∈ cfg.providers, isOkE (env.get_provider_health p) = true)
    ∧ (∃ rs, exMapM env.get_provider_health cfg.providers = Except.ok rs
        ∧ keyProviders rs [] = Except.ok snap.providers) := by
  unfold refreshBody at h
  split at h
  · exact absurd h (by simp)
  · rename_i ad ha
    split at h
    · exact absurd h (by simp)
    · rename_i gp hg
      split at h
      · exact absurd h (by simp)
      · rename_i perfs holds hp
        split at h
        · exact absurd h (by simp)
        · rename_i rs hm
          split at h
          · exact absurd h (by simp)
          · rename_i pm hk
            injection h with h
            subst h
            refine ⟨rfl, rfl, by rw [ha]; rfl, by rw [hg]; rfl, ?_, rs, hm, hk⟩
            intro p hp2
            exact exMapM_all_ok env.get_provider_health cfg.providers rs hm p hp2

theorem refresh_offline_of_error (cfg : Config) (env : Env)
    (h : isOkE (refreshBody cfg env) = false) :
    refresh cfg env = offlineSnapshot := by
  unfold refresh
  rcases hb : refreshBody cfg env with e | s
  · rfl
  · rw [hb] at h; exact absurd h (by simp [isOkE])

theorem refreshBody_error_accounts (cfg : Config) (env : Env)
    (h : isOkE env.get_accounts = false) :
    isOkE (refreshBody cfg env) = false := by
  unfold refreshBody
  rcases ha : env.get_accounts with e | ad
  · rfl
  · rw [ha] at h; exact absurd h (by simp [isOkE])

theorem refreshBody_error_global (cfg : Config) (env : Env)
    (h : isOkE env.get_global_performance = false) :
    isOkE (refreshBody cfg env) = false := by
  unfold refreshBody
  rcases ha : env.get_accounts with e | ad
  · rfl
  · rcases hg : env.get_global_performance with e | gp
    · rfl
    · rw [hg] at h; exact absurd h (by simp [isOkE])

theorem refreshBody_error_provider (cfg : Config) (env : Env) (p : String)
    (hp : p ∈ cfg.providers) (h : isOkE (env.get_provider_health p) = false) :
    isOkE (refreshBody cfg env) = false := by
  rcases hb : refreshBody cfg env with e | s
  · rfl
  · have hok := (refreshBody_ok_inv cfg env s hb).2.2.2.2.1 p hp
    rw [h] at hok
    exact absurd hok (by simp)

/-- C1, counterexample: both top-level fetches succeed, yet the returned
Snapshot is the offline default because the provider-health `gather` raised. -/
theorem c1_counterexample :
    isOkE envPH.get_accounts = true
    ∧ isOkE envPH.get_global_performance = true
    ∧ (refresh cfgPH envPH).server_online = false
    ∧ refresh cfgPH envPH = offlineSnapshot := by
  refine ⟨rfl, rfl, rfl, rfl⟩

/-- C1, amended: `server_online = true` exactly when the whole `try` body ran
to completion — the two top-level fetches and every other escalating step
(`account["id"]`/`account["name"]` lookups, provider health fan-out and
`res["code"]` keying) succeeded; whenever the body failed (in particular
whenever a top-level fetch failed) the result is the all-defaults offline
Snapshot with every collection field empty. -/
theorem c1_server_online_iff_body :
    ∀ (cfg : Config) (env : Env),
      (isOkE (refreshBody cfg env) = true → (refresh cfg env).server_online = true)
      ∧ (isOkE (refreshBody cfg env) = false →
          refresh cfg env = offlineSnapshot
          ∧ (refresh cfg env).server_online = false
          ∧ (refresh cfg env).accounts = ⟨none⟩
          ∧ (refresh cfg env).global_performance = []
          ∧ (refresh cfg env).account_performances = []
          ∧ (refresh cfg env).account_holdings = []
          ∧ (refresh cfg env).watchlist = []
          ∧ (refresh cfg env).providers = [])
      ∧ (isOkE env.get_accounts = false → refresh cfg env = offlineSnapshot)
      ∧ (isOkE env.get_global_performance = false → refresh cfg env = offlineSnapshot) := by
  intro cfg env
  refine ⟨?_, ?_, ?_, ?_⟩
  · intro hok
    rcases hb : refreshBody cfg env with e | s
    · rw [hb] at hok; exact absurd hok (by simp [isOkE])
    · unfold refresh
      rw [hb]
      exact (refreshBody_ok_inv cfg env s hb).1
  · intro herr
    have hoff := refresh_offline_of_error cfg env herr
    rw [hoff]
    exact ⟨rfl, rfl, rfl, rfl, rfl, rfl, rfl, rfl⟩
  · intro ha
    exact refresh_offline_of_error cfg env (refreshBody_error_accounts cfg env ha)
  · intro hg
    exact refresh_offline_of_error cfg env (refreshBody_error_global cfg env hg)

/-- C2, counterexample: one failing provider health call aborts the whole
refresh cycle — the Snapshot comes back offline with an *empty* providers
mapping, not with one record per configured provider. -/
theorem c2_counterexample :
    isOkE (env2.get_provider_health ("A")) = true
    ∧ isOkE (env2.get_provider_health ("B")) = false
    ∧ (refresh cfg2 env2).server_online = false
    ∧ (refresh cfg2 env2).providers = [] := by
  refine ⟨rfl, rfl, rfl, rfl⟩

/-- C2, amended: a failure of any single provider's health call escalates to
the cycle-level failure path (the offline Snapshot, empty providers mapping);
on a cycle that completes, if each provider's health response echoes its code
then the providers mapping holds exactly the configured provider codes as
keys. -/
theorem c2_provider_failure_and_keying :
    ∀ (cfg : Config) (env : Env),
      (∀ p, p ∈ cfg.providers → isOkE (env.get_provider_health p) = false →
        refresh cfg env = offlineSnapshot)
      ∧ (∀ snap, refreshBody cfg env = Except.ok snap →
          (∀ p ∈ cfg.providers,
            ∃ r, env.get_provider_health p = Except.ok r ∧ r.code = some p) →
          ∀ q, hasKey snap.providers q = true ↔ q ∈ cfg.providers) := by
  intro cfg env
  constructor
  · intro p hp herr
    exact refresh_offline_of_error cfg env
      (refreshBody_error_provider cfg env p hp herr)
  · intro snap hbody hecho q
    obtain ⟨_, _, _, _, _, rs, hrs, hkey⟩ := refreshBody_ok_inv cfg env snap hbody
    obtain ⟨rs2, hrs2, hmap⟩ := exMapM_health env.get_provider_health cfg.providers hecho
    rw [hrs] at hrs2
    injection hrs2 with hrs2
    subst hrs2
    have hcodes : ∀ r ∈ rs, r.code.isSome = true := by
      intro r hr
      have : r.code ∈ rs.map (fun r => r.code) := List.mem_map_of_mem _ hr
      rw [hmap] at this
      obtain ⟨p, _, hps⟩ := List.mem_map.mp this
      rw [← hps]
      rfl
    obtain ⟨pm, hpm, hiff⟩ := keyProviders_char rs [] hcodes
    rw [hkey] at hpm
    injection hpm with hpm
    subst hpm
    rw [hiff q, hmap]
    simp [hasKey]

/-- C5: the refresh operation is total — it either returns the successful
body's Snapshot or exactly the all-defaults offline Snapshot, whose seven
fields are all present and empty/false. -/
theorem c5_refresh_total :
    (∀ (cfg : Config) (env : Env),
      (∃ s, refreshBody cfg env = Except.ok s ∧ refresh cfg env = s)
      ∨ (isOkE (refreshBody cfg env) = false ∧ refresh cfg env = offlineSnapshot))
    ∧ offlineSnapshot.server_online = false
    ∧ offlineSnapshot.accounts = ⟨none⟩
    ∧ offlineSnapshot.global_performance = []
    ∧ offlineSnapshot.account_performances = []
    ∧ offlineSnapshot.account_holdings = []
    ∧ offlineSnapshot.watchlist = []
    ∧ offlineSnapshot.providers = [] := by
  refine ⟨?_, rfl, rfl, rfl, rfl, rfl, rfl, rfl⟩
  intro cfg env
  rcases hb : refreshBody cfg env with e | s
  · right
    refine ⟨rfl, ?_⟩
    unfold refresh
    rw [hb]
  · left
    refine ⟨s, rfl, ?_⟩
    unfold refresh
    rw [hb]

/-- C6: with no cached data or an offline cached Snapshot, `async_prune_orphans`
is a safe no-op — it removes zero entities, leaves the registry unchanged and
returns without raising. -/
theorem c6_offline_prune_noop :
    ∀ (cfg : Config) (entries : List RegistryEntry),
      pruneOrphans cfg none entries = Except.ok (entries, 0)
      ∧ (∀ s : Snapshot, s.server_online = false →
          pruneOrphans cfg (some s) entries = Except.ok (entries, 0)) := by
  intro cfg entries
  refine ⟨rfl, ?_⟩
  intro s hs
  simp only [pruneOrphans]
  rw [if_pos hs]

/-! ### The exclusion and quantity filters (C7) -/

theorem processAccounts_filter_excluded (env : Env) (cfg : Config) :
    ∀ (l : List Account) (perfs : List (String × Perf))
      (holds : List (String × List Holding)),
      processAccounts env cfg (l.filter (fun a => !a.isExcluded)) perfs holds
        = processAccounts env cfg l perfs holds := by
  intro l
  induction l with
  | nil => intro perfs holds; rfl
  | cons a rest ih =>
    intro perfs holds
    by_cases hex : a.isExcluded = true
    · rw [show (a :: rest).filter (fun a => !a.isExcluded)
          = rest.filter (fun a => !a.isExcluded) from by simp [List.filter_cons, hex]]
      rw [ih]
      conv_rhs => rw [processAccounts]
      rw [if_pos hex]
    · rw [show (a :: rest).filter (fun a => !a.isExcluded)
          = a :: rest.filter (fun a => !a.isExcluded) from by simp [List.filter_cons, hex]]
      rw [processAccounts]
      conv_rhs => rw [processAccounts]
      rw [if_neg hex, if_neg hex]
      cases stepAccount env cfg a perfs holds with
      | error e => rfl
      | ok PH =>
        cases PH with
        | mk P2 H2 => exact ih P2 H2

theorem accountSectionIds_filter (cfg : Config) :
    ∀ l : List Account,
      accountSectionIds cfg (l.filter (fun a => !a.isExcluded))
        = accountSectionIds cfg l := by
  intro l
  induction l with
  | nil => rfl
  | cons a rest ih =>
    by_cases hex : a.isExcluded = true
    · rw [show (a :: rest).filter (fun a => !a.isExcluded)
          = rest.filter (fun a => !a.isExcluded) from by simp [List.filter_cons, hex]]
      rw [ih]
      conv_rhs => rw [accountSectionIds]
      rw [if_pos hex]
    · rw [show (a :: rest).filter (fun a => !a.isExcluded)
          = a :: rest.filter (fun a => !a.isExcluded) from by simp [List.filter_cons, hex]]
      rw [accountSectionIds]
      conv_rhs => rw [accountSectionIds]
      rw [if_neg hex, if_neg hex]
      cases keyLookup a.id with
      | error e => rfl
      | ok aid => rw [ih]

theorem holdingSectionIds_filter (cfg : Config)
    (hmap : List (String × List Holding)) :
    ∀ l : List Account,
      holdingSectionIds cfg hmap (l.filter (fun a => !a.isExcluded))
        = holdingSectionIds cfg hmap l := by
  intro l
  induction l with
  | nil => rfl
  | cons a rest ih =>
    by_cases hex : a.isExcluded = true
    · rw [show (a :: rest).filter (fun a => !a.isExcluded)
          = rest.filter (fun a => !a.isExcluded) from by simp [List.filter_cons, hex]]
      rw [ih]
      conv_rhs => rw [holdingSectionIds]
      rw [if_pos hex]
    · rw [show (a :: rest).filter (fun a => !a.isExcluded)
          = a :: rest.filter (fun a => !a.isExcluded) from by simp [List.filter_cons, hex]]
      rw [holdingSectionIds]
      conv_rhs => rw [holdingSectionIds]
      rw [if_neg hex, if_neg hex]
      cases keyLookup a.id with
      | error e => rfl
      | ok aid => rw [ih]

theorem activeHoldingIds_filter (aid eid : String) :
    ∀ hs : List Holding,
      activeHoldingIds aid eid (hs.filter (fun h => decide (0 < h.quantity.getD 0)))
        = activeHoldingIds aid eid hs := by
  intro hs
  induction hs with
  | nil => rfl
  | cons h hs ih =>
    by_cases hq : 0 < h.quantity.getD 0
    · rw [show (h :: hs).filter (fun h => decide (0 < h.quantity.getD 0))
          = h :: hs.filter (fun h => decide (0 < h.quantity.getD 0)) from by
            simp [List.filter_cons, hq]]
      rw [activeHoldingIds, if_pos hq, ih]
      conv_rhs => rw [activeHoldingIds]
      rw [if_pos hq]
    · rw [show (h :: hs).filter (fun h => decide (0 < h.quantity.getD 0))
          = hs.filter (fun h => decide (0 < h.quantity.getD 0)) from by
            simp [List.filter_cons, hq]]
      rw [ih]
      conv_rhs => rw [activeHoldingIds]
      rw [if_neg hq]

theorem lookupD_map_filter (pred : Holding → Bool)
    (m : List (String × List Holding)) (k : String) :
    lookupD (m.map (fun p => (p.1, p.2.filter pred))) k []
      = (lookupD m k []).filter pred := by
  induction m with
  | nil => rfl
  | cons p m ih =>
    unfold lookupD at ih ⊢
    rw [List.map_cons]
    simp only [List.find?]
    by_cases hk : (p.1 == k) = true
    · rw [hk]
      rfl
    · have hk0 : (p.1 == k) = false := by simpa using hk
      rw [hk0]
      exact ih

theorem holdingSectionIds_filter_qty (cfg : Config)
    (hmap : List (String × List Holding)) :
    ∀ l : List Account,
      holdingSectionIds cfg
        (hmap.map (fun p => (p.1, p.2.filter (fun h => decide (0 < h.quantity.getD 0))))) l
        = holdingSectionIds cfg hmap l := by
  intro l
  induction l with
  | nil => rfl
  | cons a rest ih =>
    by_cases hex : a.isExcluded = true
    · rw [holdingSectionIds, if_pos hex, ih]
      conv_rhs => rw [holdingSectionIds]
      rw [if_pos hex]
    · rw [holdingSectionIds]
      conv_rhs => rw [holdingSectionIds]
      rw [if_neg hex, if_neg hex]
      cases keyLookup a.id with
      | error e => rfl
      | ok aid =>
        dsimp only
        rw [lookupD_map_filter, activeHoldingIds_filter, ih]

/-- C7: an excluded account contributes nothing to the orchestrator's
per-account loop, and the reconciler's expected-identifier set is unchanged
when excluded accounts are dropped from the cached snapshot or when
non-positive-quantity holdings are dropped from the raw holdings data — the
reconciler applies the same inclusion filters as the orchestrator. -/
theorem c7_exclusion_and_quantity_filters :
    (∀ (env : Env) (cfg : Config) (l : List Account)
        (perfs : List (String × Perf)) (holds : List (String × List Holding)),
      processAccounts env cfg (l.filter (fun a => !a.isExcluded)) perfs holds
        = processAccounts env cfg l perfs holds)
    ∧ (∀ (cfg : Config) (s : Snapshot),
        pruneExpected cfg (dropExcluded s) = pruneExpected cfg s)
    ∧ (∀ (cfg : Config) (s : Snapshot),
        pruneExpected cfg (dropInactiveHoldings s) = pruneExpected cfg s) := by
  refine ⟨processAccounts_filter_excluded, ?_, ?_⟩
  · intro cfg s
    unfold pruneExpected dropExcluded
    simp only [Option.getD_some, accountSectionIds_filter, holdingSectionIds_filter]
  · intro cfg s
    unfold pruneExpected dropInactiveHoldings
    simp only [holdingSectionIds_filter_qty]

/-! ### Defensive shape handling (C10) -/

/-- C10, counterexample: every remote call succeeds, but one account record
is missing its `"id"` key — `account["id"]` raises, and the whole cycle
escalates to the offline failure path instead of substituting a default. -/
theorem c10_counterexample :
    isOkE envNoId.get_accounts = true
    ∧ refresh cfgPH envNoId = offlineSnapshot
    ∧ (refresh cfgPH envNoId).server_online = false := by
  refine ⟨rfl, rfl, rfl⟩

/-- C10, amended: missing keys in responses are defaulted (the three
watchlist shapes are all accepted, a missing or empty `watchlist` value falls
through to `items`, a missing price reads as 0, a missing `marketData`
section leaves the market fields untouched) — EXCEPT that a missing account
`"id"` (or a missing account `"name"` when that account's sub-fetch fails,
or a missing provider `"code"`) raises a KeyError that escalates to the
cycle-level failure path. -/
theorem c10_defensive_defaults :
    (∀ l : List WlItem, normalizeWl (WlResp.list l) = l)
    ∧ (∀ (w : List WlItem) (i : Option (List WlItem)), w ≠ [] →
        normalizeWl (WlResp.dict (some w) i) = w)
    ∧ (∀ i : Option (List WlItem), normalizeWl (WlResp.dict none i) = i.getD [])
    ∧ (∀ i : Option (List WlItem), normalizeWl (WlResp.dict (some []) i) = i.getD [])
    ∧ normalizeWl WlResp.other = []
    ∧ (∀ d : Option String, priceOf ⟨d, none⟩ = 0)
    ∧ (∀ (item : WlItem) (pr : Option AssetProfile),
        (enrichWithMarket item ⟨none, pr⟩).marketPrice = item.marketPrice
        ∧ (enrichWithMarket item ⟨none, pr⟩).marketChange = item.marketChange
        ∧ (enrichWithMarket item ⟨none, pr⟩).marketDate = item.marketDate) := by
  refine ⟨fun l => rfl, ?_, fun i => rfl, fun i => rfl, rfl, fun d => rfl, ?_⟩
  · intro w i hw
    cases w with
    | nil => exact absurd rfl hw
    | cons x xs => rfl
  · intro item pr
    have hp := profileFill_market item (pr.getD ⟨none, none⟩)
    exact ⟨hp.2.2.1, hp.1, hp.2.2.2⟩

/-! ### The identity scheme (C8) -/

theorem toNat_ofNat_valid (n : Nat) (h : n.isValidChar) :
    (Char.ofNat n).toNat = n := by
  rw [Char.ofNat, dif_pos h]
  rfl

theorem lowerChar_idem (c : Char) : lowerChar (lowerChar c) = lowerChar c := by
  unfold lowerChar Char.toLower
  dsimp only
  by_cases h : c.toNat ≥ 65 ∧ c.toNat ≤ 90
  · rw [if_pos h]
    have hv : (Char.ofNat (c.toNat + 32)).toNat = c.toNat + 32 :=
      toNat_ofNat_valid _ (Or.inl (by omega))
    have hno : ¬((Char.ofNat (c.toNat + 32)).toNat ≥ 65
        ∧ (Char.ofNat (c.toNat + 32)).toNat ≤ 90) := by
      rw [hv]
      omega
    rw [if_neg hno]
  · rw [if_neg h, if_neg h]

theorem slugWords_trailing (cs : List Char) :
    ∀ cur, slugWords cur (cs ++ [' ']) = slugWords cur cs := by
  induction cs with
  | nil =>
    intro cur
    by_cases hcur : cur.isEmpty = true
    · simp [slugWords, hcur]
    · simp [slugWords, hcur]
  | cons c cs ih =>
    intro cur
    rw [List.cons_append, slugWords]
    conv_rhs => rw [slugWords]
    by_cases hc : c = ' '
    · rw [if_pos hc, if_pos hc]
      by_cases hcur : cur.isEmpty = true
      · rw [if_pos hcur, if_pos hcur]
        exact ih []
      · rw [if_neg hcur, if_neg hcur, ih []]
    · rw [if_neg hc, if_neg hc]
      exact ih (c :: cur)

theorem slugWords_double_space (l2 : List Char) :
    ∀ (xs : List Char) (cur : List Char),
      slugWords cur (xs ++ (' ' :: ' ' :: l2)) = slugWords cur (xs ++ (' ' :: l2)) := by
  intro xs
  induction xs with
  | nil =>
    intro cur
    by_cases hcur : cur.isEmpty = true
    · simp [slugWords, hcur]
    · simp [slugWords, hcur]
  | cons c cs ih =>
    intro cur
    rw [List.cons_append, List.cons_append, slugWords]
    conv_rhs => rw [slugWords]
    by_cases hc : c = ' '
    · rw [if_pos hc, if_pos hc]
      by_cases hcur : cur.isEmpty = true
      · rw [if_pos hcur, if_pos hcur]
        exact ih []
      · rw [if_neg hcur, if_neg hcur, ih []]
    · rw [if_neg hc, if_neg hc]
      exact ih (c :: cur)

theorem slugify_lowerStr (s : String) : slugify (lowerStr s) = slugify s := by
  unfold slugify lowerStr
  congr 1
  show slugWords [] ((s.data.map lowerChar).map lowerChar)
      = slugWords [] (s.data.map lowerChar)
  rw [List.map_map]
  congr 1
  exact List.map_congr_left (fun a _ => lowerChar_idem a)

theorem slugify_leading_space (s : String) : slugify ((" ") ++ s) = slugify s := by
  unfold slugify lowerStr
  congr 1

theorem slugify_trailing_space (s : String) : slugify (s ++ (" ")) = slugify s := by
  unfold slugify lowerStr
  congr 1
  show slugWords [] ((s.data ++ [' ']).map lowerChar) = slugWords [] (s.data.map lowerChar)
  rw [List.map_append]
  exact slugWords_trailing _ []

theorem slugify_double_space (u v : String) :
    slugify (u ++ ("  ") ++ v) = slugify (u ++ (" ") ++ v) := by
  unfold slugify lowerStr
  congr 1
  show slugWords [] (((u.data ++ [' ', ' ']) ++ v.data).map lowerChar)
      = slugWords [] (((u.data ++ [' ']) ++ v.data).map lowerChar)
  rw [List.map_append, List.map_append, List.map_append, List.map_append]
  show slugWords [] ((u.data.map lowerChar ++ [' ', ' ']) ++ v.data.map lowerChar)
      = slugWords [] ((u.data.map lowerChar ++ [' ']) ++ v.data.map lowerChar)
  rw [List.append_assoc, List.append_assoc]
  exact slugWords_double_space _ _ []

theorem str_append_right_cancel {a b c : String} (h : a ++ c = b ++ c) : a = b := by
  have hd : a.data ++ c.data = b.data ++ c.data := congrArg String.data h
  have hab : a.data = b.data := List.append_cancel_right hd
  exact congrArg String.mk hab

theorem str_append_left_cancel {a b c : String} (h : c ++ a = c ++ b) : a = b := by
  have hd : c.data ++ a.data = c.data ++ b.data := congrArg String.data h
  have hab : a.data = b.data := List.append_cancel_left hd
  exact congrArg String.mk hab

/-- C8, counterexample: two distinct logical entities — account `"a"` holding
symbol `"b c"`, and account `"a_b"` holding symbol `"c"` — produce the same
unique identifier, because the slug separator and the literal underscores
between fields are indistinguishable in the concatenation. -/
theorem c8_counterexample :
    holdingUid ("a") ("b c") ("e") = holdingUid ("a_b") ("c") ("e")
    ∧ ¬(("a" : String) = ("a_b") ∧ ("b c" : String) = ("c")) := by
  constructor
  · decide
  · decide

/-- C8, amended: the identifier construction is a pure deterministic
function; the symbol is slug-normalized, so lowercasing it or varying its
leading/trailing/duplicate whitespace leaves the identifier unchanged; and
with the other components held fixed, varying only the account id or only
the config-entry id always yields a different identifier.  (Full injectivity
on pairs fails: see the counterexample.) -/
theorem c8_uid_properties :
    (∀ aid sym eid : String, holdingUid aid sym eid = holdingUid aid sym eid)
    ∧ (∀ aid sym eid : String,
        holdingUid aid (lowerStr sym) eid = holdingUid aid sym eid)
    ∧ (∀ aid sym eid : String,
        holdingUid aid ((" ") ++ sym) eid = holdingUid aid sym eid)
    ∧ (∀ aid sym eid : String,
        holdingUid aid (sym ++ (" ")) eid = holdingUid aid sym eid)
    ∧ (∀ aid u v eid : String,
        holdingUid aid (u ++ ("  ") ++ v) eid = holdingUid aid (u ++ (" ") ++ v) eid)
    ∧ (∀ aid aid2 sym eid : String, aid ≠ aid2 →
        holdingUid aid sym eid ≠ holdingUid aid2 sym eid)
    ∧ (∀ aid sym eid eid2 : String, eid ≠ eid2 →
        holdingUid aid sym eid ≠ holdingUid aid sym eid2) := by
  refine ⟨fun aid sym eid => rfl, ?_, ?_, ?_, ?_, ?_, ?_⟩
  · intro aid sym eid
    unfold holdingUid
    rw [slugify_lowerStr]
  · intro aid sym eid
    unfold holdingUid
    rw [slugify_leading_space]
  · intro aid sym eid
    unfold holdingUid
    rw [slugify_trailing_space]
  · intro aid u v eid
    unfold holdingUid
    rw [slugify_double_space]
  · intro aid aid2 sym eid hne heq
    apply hne
    unfold holdingUid at heq
    have h1 := str_append_right_cancel heq
    have h2 := str_append_right_cancel h1
    have h3 := str_append_right_cancel h2
    have h4 := str_append_right_cancel h3
    exact str_append_left_cancel h4
  · intro aid sym eid eid2 hne heq
    apply hne
    unfold holdingUid at heq
    exact str_append_left_cancel heq

/-- C8, witness: the injectivity conjuncts applied at concrete inputs. -/
theorem c8_uid_properties_witness :
    holdingUid ("a1") ("SYM") ("e1") ≠ holdingUid ("a2") ("SYM") ("e1")
    ∧ holdingUid ("a1") ("SYM") ("e1") ≠ holdingUid ("a1") ("SYM") ("e2") := by
  constructor
  · exact c8_uid_properties.2.2.2.2.2.1 ("a1") ("a2") ("SYM") ("e1") (by decide)
  · exact c8_uid_properties.2.2.2.2.2.2 ("a1") ("SYM") ("e1") ("e2") (by decide)

/-! ### Per-account partial-failure tolerance (C9) -/

theorem stepPerf_char (env : Env) (a : Account) (aid : String)
    (perfs : List (String × Perf)) (hnm : a.name.isSome = true) :
    ∃ P2, stepPerf env a aid perfs = Except.ok P2
      ∧ ∀ q, hasKey P2 q = true ↔
          (hasKey perfs q = true
           ∨ (q = aid ∧ isOkE (env.get_account_performance q) = true)) := by
  rcases hnm2 : a.name with _ | nm
  · rw [hnm2] at hnm
    simp at hnm
  · rcases hperf : env.get_account_performance aid with e | p
    · refine ⟨perfs, ?_, ?_⟩
      · simp only [stepPerf, hperf, hnm2, keyLookup]
      · intro q
        constructor
        · exact fun h => Or.inl h
        · rintro (h | ⟨rfl, hok⟩)
          · exact h
          · rw [hperf] at hok
            exact absurd hok (by simp [isOkE])
    · refine ⟨dinsert perfs aid p, ?_, ?_⟩
      · simp only [stepPerf, hperf]
      · intro q
        rw [hasKey_dinsert_iff]
        constructor
        · rintro (h | rfl)
          · exact Or.inl h
          · exact Or.inr ⟨rfl, by rw [hperf]; rfl⟩
        · rintro (h | ⟨rfl, h2⟩)
          · exact Or.inl h
          · exact Or.inr rfl

theorem stepHold_char (env : Env) (cfg : Config) (a : Account) (aid : String)
    (holds : List (String × List Holding)) (hnm : a.name.isSome = true) :
    ∃ H2, stepHold env cfg a aid holds = Except.ok H2
      ∧ ∀ q, hasKey H2 q = true ↔
          (hasKey holds q = true
           ∨ (cfg.show_holdings = true ∧ q = aid
              ∧ isOkE (env.get_holdings q) = true)) := by
  rcases hnm2 : a.name with _ | nm
  · rw [hnm2] at hnm
    simp at hnm
  · rcases hsh : cfg.show_holdings with _ | _
    · refine ⟨holds, ?_, ?_⟩
      · simp only [stepHold, hsh, Bool.false_eq_true, if_false]
      · intro q
        constructor
        · exact fun h => Or.inl h
        · rintro (h | ⟨hshow, _, _⟩)
          · exact h
          · exact absurd hshow (by simp)
    · rcases hhold : env.get_holdings aid with e | hr
      · refine ⟨holds, ?_, ?_⟩
        · simp only [stepHold, hsh, if_true, hhold, hnm2, keyLookup]
        · intro q
          constructor
          · exact fun h => Or.inl h
          · rintro (h | ⟨h1, rfl, hok⟩)
            · exact h
            · rw [hhold] at hok
              exact absurd hok (by simp [isOkE])
      · refine ⟨dinsert holds aid (hr.holdings.getD []), ?_, ?_⟩
        · simp only [stepHold, hsh, if_true, hhold]
        · intro q
          rw [hasKey_dinsert_iff]
          constructor
          · rintro (h | rfl)
            · exact Or.inl h
            · exact Or.inr ⟨rfl, rfl, by rw [hhold]; rfl⟩
          · rintro (h | ⟨h1, rfl, h2⟩)
            · exact Or.inl h
            · exact Or.inr rfl

theorem stepAccount_char (env : Env) (cfg : Config) (a : Account)
    (perfs : List (String × Perf)) (holds : List (String × List Holding))
    (aid : String) (hid : a.id = some aid) (hnm : a.name.isSome = true) :
    ∃ P2 H2, stepAccount env cfg a perfs holds = Except.ok (P2, H2)
      ∧ (∀ q, hasKey P2 q = true ↔
          (hasKey perfs q = true
           ∨ (q = aid ∧ isOkE (env.get_account_performance q) = true)))
      ∧ (∀ q, hasKey H2 q = true ↔
          (hasKey holds q = true
           ∨ (cfg.show_holdings = true ∧ q = aid
              ∧ isOkE (env.get_holdings q) = true))) := by
  obtain ⟨P2, hP2, hPiff⟩ := stepPerf_char env a aid perfs hnm
  obtain ⟨H2, hH2, hHiff⟩ := stepHold_char env cfg a aid holds hnm
  refine ⟨P2, H2, ?_, hPiff, hHiff⟩
  simp only [stepAccount, hid, keyLookup, hP2, hH2]

theorem processAccounts_char (env : Env) (cfg : Config) :
    ∀ l : List Account,
      (∀ a ∈ l, a.isExcluded = false → a.id.isSome = true ∧ a.name.isSome = true) →
      ∀ (perfs : List (String × Perf)) (holds : List (String × List Holding)),
      ∃ P H, processAccounts env cfg l perfs holds = Except.ok (P, H)
        ∧ (∀ q, hasKey P q = true ↔
            (hasKey perfs q = true
             ∨ ∃ a, a ∈ l ∧ a.isExcluded = false ∧ a.id = some q
                 ∧ isOkE (env.get_account_performance q) = true))
        ∧ (∀ q, hasKey H q = true ↔
            (hasKey holds q = true
             ∨ (cfg.show_holdings = true
                ∧ ∃ a, a ∈ l ∧ a.isExcluded = false ∧ a.id = some q
                    ∧ isOkE (env.get_holdings q) = true))) := by
  intro l
  induction l with
  | nil =>
    intro _ perfs holds
    refine ⟨perfs, holds, rfl, ?_, ?_⟩
    · intro q
      simp
    · intro q
      simp
  | cons a rest ih =>
    intro hall perfs holds
    have hall2 := fun x hx => hall x (List.mem_cons_of_mem a hx)
    by_cases hex : a.isExcluded = true
    · obtain ⟨P, H, hrun, hP, hH⟩ := ih hall2 perfs holds
      refine ⟨P, H, ?_, ?_, ?_⟩
      · rw [processAccounts, if_pos hex]
        exact hrun
      · intro q
        rw [hP q]
        constructor
        · rintro (h | ⟨x, hx, hform⟩)
          · exact Or.inl h
          · exact Or.inr ⟨x, List.mem_cons_of_mem a hx, hform⟩
        · rintro (h | ⟨x, hx, hxe, hform⟩)
          · exact Or.inl h
          · rcases List.mem_cons.mp hx with rfl | hx2
            · rw [hex] at hxe
              exact absurd hxe (by simp)
            · exact Or.inr ⟨x, hx2, hxe, hform⟩
      · intro q
        rw [hH q]
        constructor
        · rintro (h | ⟨hs, x, hx, hform⟩)
          · exact Or.inl h
          · exact Or.inr ⟨hs, x, List.mem_cons_of_mem a hx, hform⟩
        · rintro (h | ⟨hs, x, hx, hxe, hform⟩)
          · exact Or.inl h
          · rcases List.mem_cons.mp hx with rfl | hx2
            · rw [hex] at hxe
              exact absurd hxe (by simp)
            · exact Or.inr ⟨hs, x, hx2, hxe, hform⟩
    · have hex2 : a.isExcluded = false := by simpa using hex
      obtain ⟨hidS, hnm⟩ := hall a (List.mem_cons_self a rest) hex2
      rcases hid : a.id with _ | aid
      · rw [hid] at hidS
        simp at hidS
      · obtain ⟨P2, H2, hstep, hsP, hsH⟩ :=
          stepAccount_char env cfg a perfs holds aid hid hnm
        obtain ⟨P, H, hrun, hP, hH⟩ := ih hall2 P2 H2
        refine ⟨P, H, ?_, ?_, ?_⟩
        · rw [processAccounts, if_neg hex, hstep]
          exact hrun
        · intro q
          rw [hP q, hsP q]
          constructor
          · rintro ((h | ⟨rfl, hok⟩) | ⟨x, hx, hform⟩)
            · exact Or.inl h
            · exact Or.inr ⟨a, List.mem_cons_self a rest, hex2, hid, hok⟩
            · exact Or.inr ⟨x, List.mem_cons_of_mem a hx, hform⟩
          · rintro (h | ⟨x, hx, hxe, hxid, hok⟩)
            · exact Or.inl (Or.inl h)
            · rcases List.mem_cons.mp hx with rfl | hx2
              · rw [hid] at hxid
                injection hxid with hxid
                exact Or.inl (Or.inr ⟨hxid.symm, hok⟩)
              · exact Or.inr ⟨x, hx2, hxe, hxid, hok⟩
        · intro q
          rw [hH q, hsH q]
          constructor
          · rintro ((h | ⟨hs, rfl, hok⟩) | ⟨hs, x, hx, hform⟩)
            · exact Or.inl h
            · exact Or.inr ⟨hs, a, List.mem_cons_self a rest, hex2, hid, hok⟩
            · exact Or.inr ⟨hs, x, List.mem_cons_of_mem a hx, hform⟩
          · rintro (h | ⟨hs, x, hx, hxe, hxid, hok⟩)
            · exact Or.inl (Or.inl h)
            · rcases List.mem_cons.mp hx with rfl | hx2
              · rw [hid] at hxid
                injection hxid with hxid
                exact Or.inl (Or.inr ⟨hs, hxid.symm, hok⟩)
              · exact Or.inr ⟨hs, x, hx2, hxe, hxid, hok⟩

theorem exMapM_ok_codes (f : String → Except Err HealthRec) :
    ∀ l, (∀ p ∈ l, ∃ r, f p = Except.ok r ∧ r.code.isSome = true) →
      ∃ rs, exMapM f l = Except.ok rs ∧ ∀ r ∈ rs, r.code.isSome = true := by
  intro l
  induction l with
  | nil =>
    intro _
    exact ⟨[], rfl, by simp⟩
  | cons x xs ih =>
    intro hall
    obtain ⟨r, hr, hcode⟩ := hall x (List.mem_cons_self x xs)
    obtain ⟨rs, hrs, hcodes⟩ := ih (fun p hp => hall p (List.mem_cons_of_mem x hp))
    refine ⟨r :: rs, ?_, ?_⟩
    · rw [exMapM, hr, hrs]
    · intro r2 hr2
      rcases List.mem_cons.mp hr2 with rfl | h2
      · exact hcode
      · exact hcodes r2 h2

theorem fetchWatchlist_of_error (cfg : Config) (env : Env)
    (h : isOkE env.get_watchlist = false) : fetchWatchlist cfg env = [] := by
  unfold fetchWatchlist
  by_cases hs : cfg.show_watchlist = true
  · rw [if_pos hs]
    rcases hw : env.get_watchlist with e | wl
    · rfl
    · rw [hw] at h
      exact absurd h (by simp [isOkE])
  · rw [if_neg hs]

/-- C9, amended: with both top-level fetches succeeding AND the remaining
escalating steps benign (every non-excluded account carries `id` and `name`,
every provider health call succeeds with a `code`), the cycle completes with
`server_online = true` no matter how the per-account sub-fetches or the
watchlist fetch went; a failed watchlist fetch leaves `watchlist = []`; and
an account id is a key of `account_performances` (resp. `account_holdings`)
exactly when some non-excluded account carries that id and its own sub-fetch
succeeded — failed accounts are simply absent, other accounts unaffected. -/
theorem c9_partial_failure_tolerance (cfg : Config) (env : Env) (ad : AccountsResp)
    (ha : env.get_accounts = Except.ok ad)
    (hg : isOkE env.get_global_performance = true)
    (hacc : ∀ a ∈ ad.accounts.getD [], a.isExcluded = false →
        a.id.isSome = true ∧ a.name.isSome = true)
    (hprov : ∀ p ∈ cfg.providers,
        ∃ r, env.get_provider_health p = Except.ok r ∧ r.code.isSome = true) :
    (refresh cfg env).server_online = true
    ∧ (isOkE env.get_watchlist = false → (refresh cfg env).watchlist = [])
    ∧ (∀ q, hasKey (refresh cfg env).account_performances q = true ↔
        ∃ a, a ∈ ad.accounts.getD [] ∧ a.isExcluded = false ∧ a.id = some q
          ∧ isOkE (env.get_account_performance q) = true)
    ∧ (∀ q, hasKey (refresh cfg env).account_holdings q = true ↔
        (cfg.show_holdings = true
         ∧ ∃ a, a ∈ ad.accounts.getD [] ∧ a.isExcluded = false
             ∧ a.id = some q ∧ isOkE (env.get_holdings q) = true)) := by
  rcases hgp : env.get_global_performance with e | gp
  · rw [hgp] at hg
    exact absurd hg (by simp [isOkE])
  · obtain ⟨P, H, hPA, hP, hH⟩ := processAccounts_char env cfg (ad.accounts.getD []) hacc [] []
    obtain ⟨rs, hrs, hcodes⟩ := exMapM_ok_codes env.get_provider_health cfg.providers hprov
    obtain ⟨pm, hpm, hpmiff⟩ := keyProviders_char rs [] hcodes
    have hbody : refreshBody cfg env = Except.ok
        { server_online := true
          accounts := ad
          global_performance := gp
          account_performances := P
          account_holdings := H
          watchlist := fetchWatchlist cfg env
          providers := pm } := by
      simp only [refreshBody, ha, hgp, hPA, hrs, hpm]
    have hrefresh : refresh cfg env =
        { server_online := true
          accounts := ad
          global_performance := gp
          account_performances := P
          account_holdings := H
          watchlist := fetchWatchlist cfg env
          providers := pm } := by
      unfold refresh
      rw [hbody]
    rw [hrefresh]
    refine ⟨rfl, ?_, ?_, ?_⟩
    · intro hw
      exact fetchWatchlist_of_error cfg env hw
    · intro q
      show hasKey P q = true ↔ _
      rw [hP q]
      simp [hasKey]
    · intro q
      show hasKey H q = true ↔ _
      rw [hH q]
      simp [hasKey]

/-- C9, witness: the amended theorem at a concrete environment (one failing
per-account fetch, failing watchlist fetch, cycle still online). -/
theorem c9_witness :
    (refresh cfg9 env9).server_online = true
    ∧ (refresh cfg9 env9).watchlist = [] := by
  have h := c9_partial_failure_tolerance cfg9 env9
    ⟨some [⟨some ("a1"), some ("n1"), false⟩, ⟨some ("a2"), some ("n2"), false⟩]⟩
    rfl rfl (by decide) (fun p hp => ⟨⟨some p, true, some 200⟩, rfl, rfl⟩)
  exact ⟨h.1, h.2.1 rfl⟩

/-- C9, counterexample: both top-level fetches succeed, yet a single
per-account performance-fetch failure aborts the entire cycle (offline
Snapshot), because the failure handler's log line indexes the missing
`"name"` key. -/
theorem c9_counterexample :
    isOkE env9ce.get_accounts = true
    ∧ isOkE env9ce.get_global_performance = true
    ∧ refresh cfg9 env9ce = offlineSnapshot := by
  refine ⟨rfl, rfl, rfl⟩

end Ghostfolio
